import Mathlib

/-!
Verification development for the dpp-ext-installer update orchestrator
(`src/denops/@dpp-exts/installer/main.ts`, the latest variant of the
extension).  The TypeScript source is shallowly embedded: plugins,
protocol-adapter results and process outcomes become explicit data, the
per-plugin update workflow and the run orchestration become pure
functions producing an event trace plus a classification, and the
rollback store becomes a pure file-system map together with an
executable model of the flat JSON object codec used by
`JSON.stringify`/`JSON.parse` on name→revision records.
-/

namespace Installer

/-- A command produced by the protocol adapter: executable plus argument
list (`command.command` / `command.args` in the source). -/
structure Command where
  cmd : String
  args : List String
deriving DecidableEq, Repr

/-- Outcome of spawning one command (`Deno.Command(...).spawn()` plus the
piped line streams): exit success, stdout lines, stderr lines. -/
structure CmdResult where
  success : Bool
  stdoutLines : List String
  stderrLines : List String
deriving DecidableEq, Repr

/-- The plugin record, restricted to the fields the installer reads.
Optional string fields (`path`, `protocol`, `rev`, the
`installerBuild` ext attr) are modelled as `String` with `""` for
absent, matching the JavaScript truthiness tests the source performs on
them.  `isLocal` embeds the source's `local` field (a reserved word in
Lean); `extAttrs.installerFrozen` becomes `installerFrozen`. -/
structure Plugin where
  name : String
  path : String := ""
  protocol : String := ""
  rev : String := ""
  isLocal : Bool := false
  frozen : Bool := false
  installerBuild : String := ""
  installerFrozen : Bool := false
  depends : List String := []
  hook_pre_update : Bool := false
  hook_post_update : Bool := false
  hook_done_update : Bool := false
  hook_depends_update : Bool := false
  repo : String := ""
deriving DecidableEq, Repr

/-- The ext params record (`Params` in the source). -/
structure Params where
  checkDiff : Bool := false
  githubAPIToken : String := ""
  logFilePath : String := ""
  maxProcesses : Int := 5
  wait : Int := 0
deriving DecidableEq, Repr

/-- `getPlugins` from `main.ts` (lines 1587–1604): reads every plugin of
the registry (`g:dpp#_plugins` values) and, when `names` is non-empty,
keeps exactly the plugins whose name occurs in `names`
(`names.indexOf(plugin.name) >= 0`).  Note: despite the stale
`// NOTE: Skip local plugins` comment, this latest variant applies no
`local`/`frozen` filter. -/
def getPlugins (registry : List Plugin) (names : List String) : List Plugin :=
  if names.length > 0 then
    registry.filter (fun plugin => names.contains plugin.name)
  else
    registry

/-- The argument the scheduler hands to the concurrency mechanism:
`new Semaphore(args.extParams.maxProcesses)` in `#updatePlugins`
(main.ts line 510) passes the configured value through unchanged. -/
def semaphoreSize (extParams : Params) : Int :=
  extParams.maxProcesses

/-- Modelled from the spec: the spec's scheduler contract says the
concurrency limit is the configured value with `limit < 1` clamped
to `1` (the older `installer.ts` variant's
`Math.max(args.extParams.maxProcesses, 1)`). -/
def clampedSemaphoreSize (extParams : Params) : Int :=
  max extParams.maxProcesses 1

/-- One observable step of a run.  `progress`, `error` and `message`
are the three print sinks (`#printProgress`, `#printError`,
`#printMessage`); `execCmd` marks one `Deno.Command(...).spawn()`;
`hook` is a `dpp#ext#installer#_call_hook` invocation; `build` marks
entry into `#buildPlugin`'s spawn; the remaining constructors are the
run-final host calls of `#updatePlugins`. -/
inductive Event where
  | progress (msg : String)
  | error (msg : String)
  | message (msg : String)
  | execCmd (c : Command)
  | hook (kind : String) (pluginName : String)
  | build (pluginName : String)
  | saveRollback
  | closeProgressWindow
  | makeState
  | redraw
  | updateDone
deriving DecidableEq, Repr

/-- The external collaborators of one run, made deterministic: the
registry (`g:dpp#_plugins`), the ext params, the file-system directory
test, the process runner, and the protocol adapter queried by plugin
name.  `getRevisionOld` is the revision the adapter reports before the
sync commands run, `getRevisionNew` the one it reports afterwards. -/
structure Env where
  registry : List Plugin
  extParams : Params := {}
  isDir : String → Bool
  runCmd : Command → CmdResult
  getRevisionOld : String → String
  getRevisionNew : String → String
  syncCommands : String → List Command
  rollbackCommands : String → String → List Command
  revisionLockCommands : String → List Command
  logCommands : String → String → String → List Command
  changesCountCommands : String → String → String → List Command
  diffCommands : String → String → String → List Command
  url : String → String
  shell : String := "sh"
  shellcmdflag : String := "-c"
  nowString : String := ""
  basePath : String := ""
  dppName : String := ""
  timestampLabel : String := ""

/-- Spawning one command: the `execCmd` marker followed by the piped
stdout lines (sent to `#printProgress`) and stderr lines (sent to
`#printError`). -/
def cmdRunEvents (env : Env) (c : Command) : List Event :=
  Event.execCmd c ::
    ((env.runCmd c).stdoutLines.map Event.progress ++
      (env.runCmd c).stderrLines.map Event.error)

/-- Result of the sync-command loop of `#updatePlugin` (main.ts lines
734–761). -/
structure ExecResult where
  success : Bool
  events : List Event
  executed : List Command
deriving Repr

/-- The `// Execute commands` loop: commands run strictly in list
order; the first non-zero exit sets `updateSuccess = false` and
`break`s out, leaving the remaining commands unexecuted. -/
def execCommands (env : Env) : List Command → ExecResult
  | [] => ⟨true, [], []⟩
  | c :: rest =>
    if (env.runCmd c).success then
      let r := execCommands env rest
      ⟨r.success, cmdRunEvents env c ++ r.events, c :: r.executed⟩
    else
      ⟨false, cmdRunEvents env c, [c]⟩

/-- `#revisionLockPlugin`: a no-op unless the plugin has a path that is
a directory and a non-empty `rev`; otherwise runs every revision-lock
command (this loop ignores exit status — it awaits each command and
continues). -/
def revisionLockPlugin (env : Env) (p : Plugin) : List Event :=
  if p.path = "" ∨ ¬ env.isDir p.path ∨ p.rev = "" then []
  else ((env.revisionLockCommands p.name).map (cmdRunEvents env)).flatten

/-- `#buildPlugin`: a no-op unless the plugin has an existing directory
path and a non-empty `installerBuild` attr; otherwise runs the build
script through the host shell inside the plugin directory.  The
`Event.build` marker records that the build spawn happened. -/
def buildPlugin (env : Env) (p : Plugin) : List Event :=
  if p.path = "" ∨ ¬ env.isDir p.path ∨ p.installerBuild = "" then []
  else
    Event.build p.name ::
      cmdRunEvents env ⟨env.shell, [env.shellcmdflag, p.installerBuild]⟩

/-- `#getLogMessage`: returns `""` without running anything when the
revisions are equal or either is empty; otherwise the log commands'
stdout lines are collected into the message (they do not enter the run
log) while each spawn and its stderr lines do enter the trace. -/
def getLogMessage (env : Env) (p : Plugin) (oldRev newRev : String) :
    String × List Event :=
  if newRev = oldRev ∨ newRev = "" ∨ oldRev = "" then ("", [])
  else
    let cmds := env.logCommands p.name oldRev newRev
    (String.intercalate "\n" ((cmds.map (fun c => (env.runCmd c).stdoutLines)).flatten),
      (cmds.map (fun c =>
        Event.execCmd c :: (env.runCmd c).stderrLines.map Event.error)).flatten)

/-- `parseInt(msg, 10)` as used on a changes-count line: optional
leading spaces and sign, then a decimal digit prefix; `none` models
`NaN`. -/
def jsParseInt (s : String) : Option Int :=
  let t := s.data.dropWhile (fun c => c = ' ' ∨ c = '\t')
  let (sign, t) : Int × List Char :=
    match t with
    | '-' :: t' => (-1, t')
    | '+' :: t' => (1, t')
    | _ => (1, t)
  let digits := t.takeWhile Char.isDigit
  if digits = [] then none
  else some (sign * (String.mk digits).toNat!)

/-- `#getChangesCount`: `0` without running anything when the revisions
are equal or either is empty; otherwise each stdout line overwrites the
count via `parseInt`, so the result is the parse of the last line (`0`
when no line arrived, `none` for `NaN`). -/
def getChangesCount (env : Env) (p : Plugin) (oldRev newRev : String) :
    Option Int × List Event :=
  if newRev = oldRev ∨ newRev = "" ∨ oldRev = "" then (some 0, [])
  else
    let cmds := env.changesCountCommands p.name oldRev newRev
    let lines := (cmds.map (fun c => (env.runCmd c).stdoutLines)).flatten
    ((match lines.getLast? with
      | none => some 0
      | some l => jsParseInt l),
      (cmds.map (fun c =>
        Event.execCmd c :: (env.runCmd c).stderrLines.map Event.error)).flatten)

/-- The `UpdatedPlugin` record pushed for a classified-as-updated
plugin (the protocol binding itself is keyed by `plugin.protocol` in
the environment, so it is not repeated here).  `changesCount = none`
models `NaN`. -/
structure UpdatedPlugin where
  plugin : Plugin
  newRev : String
  oldRev : String
  url : String
  logMessage : String
  changesCount : Option Int
deriving DecidableEq, Repr

/-- The exactly-one resolution of one per-plugin workflow: no recorded
outcome, one entry pushed to `updatedPlugins`, or one entry pushed to
`failedPlugins`. -/
inductive Classification where
  | noRecord
  | updated (u : UpdatedPlugin)
  | failed (p : Plugin)
deriving DecidableEq, Repr

/-- What one `#updatePlugin` invocation produces: its trace, its
classification, and the plugin record as left behind (the `rev` field
is mutated and restored in place in the source). -/
structure UpdateResult where
  events : List Event
  classify : Classification
  finalPlugin : Plugin
deriving Repr

/-- `Record` lookup `revisions[plugin.name]` with JavaScript
truthiness: absent and `""` are both falsy. -/
def lookupRev (revisions : List (String × String)) (name : String) : String :=
  ((revisions.find? (fun kv => kv.1 = name)).map Prod.snd).getD ""

/-- In-place assignment `plugin.rev = r` (the source mutates the
shared plugin record; the model rebuilds it). -/
def withRev (p : Plugin) (r : String) : Plugin := { p with rev := r }

/-- Clearing the pin and writing the saved value back restores the
original plugin record. -/
theorem withRev_clear_restore (p : Plugin) :
    withRev (withRev p "") p.rev = p := rfl

/-- The sync-phase command sequence of `#updatePlugin` (main.ts lines
706–724): the sync commands, extended with the rollback commands when
a rollback target revision was supplied for this plugin. -/
def syncCommandSeq (env : Env) (revisions : List (String × String))
    (p : Plugin) : List Command :=
  env.syncCommands p.name ++
    (if lookupRev revisions p.name ≠ "" then
      env.rollbackCommands p.name (lookupRev revisions p.name)
    else [])

/-- `#updatePlugin` (main.ts lines 645–831): progress header; skip for
local plugins (message, no record) and for an empty protocol name (no
record); otherwise capture the old revision, clear/lock/restore around
the pinned revision, build the sync (+ optional rollback) command
sequence, fire the pre-update hook, execute the sequence with
abort-on-first-failure, re-run the revision lock whenever a pin
exists, and classify. -/
def updatePlugin (env : Env) (revisions : List (String × String))
    (total : Nat) (p : Plugin) (index : Nat) : UpdateResult :=
  let intro := [Event.progress
    ("[" ++ toString index ++ "/" ++ toString total ++ "] " ++ p.name)]
  if p.isLocal then
    ⟨intro ++ [Event.message
        ("\"" ++ p.name ++ "\" is local plugin.  The update is skipped.")],
      .noRecord, p⟩
  else if p.protocol = "" then
    ⟨intro, .noRecord, p⟩
  else
    let oldRev := env.getRevisionOld p.name
    -- Force checkout HEAD revision: save the pin, clear it, lock, restore.
    let saveRev := p.rev
    let cleared : Plugin := withRev p ""
    let lockEvents1 :=
      if saveRev ≠ "" then revisionLockPlugin env cleared else []
    let restored : Plugin := withRev cleared saveRev
    let commands := syncCommandSeq env revisions restored
    let preHook :=
      if restored.hook_pre_update then
        [Event.hook "pre_update" restored.name]
      else []
    let ex := execCommands env commands
    let lockEvents2 :=
      if restored.rev ≠ "" then revisionLockPlugin env restored else []
    if ex.success then
      let newRev := env.getRevisionNew restored.name
      let lm := getLogMessage env restored oldRev newRev
      let cc := getChangesCount env restored oldRev newRev
      if oldRev = "" ∨ oldRev ≠ newRev then
        let postHook :=
          if restored.hook_post_update then
            [Event.hook "post_update" restored.name]
          else []
        let buildEvs := buildPlugin env restored
        ⟨intro ++ lockEvents1 ++ preHook ++ ex.events ++ lockEvents2 ++
            lm.2 ++ cc.2 ++ postHook ++ buildEvs,
          .updated ⟨restored, newRev, oldRev, env.url restored.name, lm.1, cc.1⟩,
          restored⟩
      else
        ⟨intro ++ lockEvents1 ++ preHook ++ ex.events ++ lockEvents2 ++
            lm.2 ++ cc.2,
          .noRecord, restored⟩
    else
      ⟨intro ++ lockEvents1 ++ preHook ++ ex.events ++ lockEvents2,
        .failed restored, restored⟩

/-- The scheduler loop body of `#updatePlugins` (main.ts lines
508–527): every targeted plugin runs the workflow once, numbered in
submission order; each invocation appends at most one entry to the
updated list and at most one to the failed list.  (The semaphore
interleaving permutes only the trace order across plugins, not list
membership; the model serializes in submission order.) -/
def runWorkflows (env : Env) (revisions : List (String × String))
    (total : Nat) : List Plugin → Nat →
    List Event × List UpdatedPlugin × List Plugin
  | [], _ => ([], [], [])
  | p :: rest, index =>
    let r := updatePlugin env revisions total p index
    let rec' := runWorkflows env revisions total rest (index + 1)
    (r.events ++ rec'.1,
      (match r.classify with | .updated u => [u] | _ => []) ++ rec'.2.1,
      (match r.classify with | .failed q => [q] | _ => []) ++ rec'.2.2)

/-- The inner dependency loop of the aggregator (main.ts lines
539–554): walks the resolved dependencies, firing the depends-update
hook for each dependency that declares one and has not been called in
this run yet, marking it in `calledDepends`. -/
def dependsLoop : List Plugin → List String → List Event × List String
  | [], called => ([], called)
  | d :: rest, called =>
    if d.hook_depends_update ∧ ¬ called.contains d.name then
      let r := dependsLoop rest (d.name :: called)
      (Event.hook "depends_update" d.name :: r.1, r.2)
    else
      dependsLoop rest called

/-- `#checkDiff`: a no-op when the revisions are equal or either is
empty; otherwise each diff command is spawned (its stdout goes to the
diff buffer, not the run log; stderr goes to `#printError`). -/
def checkDiff (env : Env) (u : UpdatedPlugin) : List Event :=
  if u.newRev = u.oldRev ∨ u.newRev = "" ∨ u.oldRev = "" then []
  else
    ((env.diffCommands u.plugin.name u.oldRev u.newRev).map (fun c =>
      Event.execCmd c :: (env.runCmd c).stderrLines.map Event.error)).flatten

/-- The post-scheduling aggregator loop of `#updatePlugins` (main.ts
lines 529–566): for each updated plugin fire its done-update hook,
resolve its declared dependencies through `getPlugins` and fire each
distinct dependency's depends-update hook at most once per run
(`calledDepends`), then optionally show the diff. -/
def dependHookEvents (env : Env) :
    List UpdatedPlugin → List String → List Event
  | [], _ => []
  | u :: rest, called =>
    let doneEv :=
      if u.plugin.hook_done_update then
        [Event.hook "done_update" u.plugin.name]
      else []
    let deps := getPlugins env.registry u.plugin.depends
    let dl := dependsLoop deps called
    let diffEvs := if env.extParams.checkDiff then checkDiff env u else []
    doneEv ++ dl.1 ++ diffEvs ++ dependHookEvents env rest dl.2

/-! ### Rollback store

`saveRollbackFile` serializes a flat name→revision record with
`JSON.stringify` and writes it under both the `latest` label and a
fresh timestamp label; `loadRollbackFile` stats the file, returning the
empty record when absent, and `JSON.parse`s it otherwise.  The
JavaScript codec for flat string-to-string objects (insertion-ordered
keys, `"`/`\` escaped with a backslash) is modelled executably below so
that the round trip is a theorem, not an assumption. -/

/-- One character of a JSON string body as `JSON.stringify` emits it:
the two structurally significant characters `"` and `\` get a
backslash escape, everything else is emitted literally. -/
def escapeChar (c : Char) : List Char :=
  if c = '"' ∨ c = '\\' then ['\\', c] else [c]

/-- Escape a whole string body. -/
def escapeChars : List Char → List Char
  | [] => []
  | c :: cs => escapeChar c ++ escapeChars cs

/-- A quoted JSON string literal for `s`. -/
def encodeStringData (s : String) : List Char :=
  '"' :: (escapeChars s.data ++ ['"'])

/-- One `"key":"value"` member. -/
def encodePairData (kv : String × String) : List Char :=
  encodeStringData kv.1 ++ ':' :: encodeStringData kv.2

/-- Comma-separated members, in insertion order. -/
def encodePairsData : List (String × String) → List Char
  | [] => []
  | [kv] => encodePairData kv
  | kv :: rest => encodePairData kv ++ ',' :: encodePairsData rest

/-- `JSON.stringify(revisions)` for a flat string-to-string record. -/
def encodeRollbacks (m : List (String × String)) : String :=
  String.mk ('{' :: (encodePairsData m ++ ['}']))

/-- Consume a JSON string body up to its closing quote, undoing the
escapes; returns the decoded characters and the rest of the input. -/
def parseStringBody : List Char → Option (List Char × List Char)
  | [] => none
  | c :: cs =>
    if c = '"' then some ([], cs)
    else if c = '\\' then
      match cs with
      | [] => none
      | e :: cs2 =>
        if e = '"' ∨ e = '\\' then
          match parseStringBody cs2 with
          | some (s, r) => some (e :: s, r)
          | none => none
        else none
    else
      match parseStringBody cs with
      | some (s, r) => some (c :: s, r)
      | none => none

/-- Consume the members of a non-empty object body followed by the
closing brace; `fuel` bounds the number of members. -/
def parseObjectBody : Nat → List Char → Option (List (String × String) × List Char)
  | 0, _ => none
  | fuel + 1, cs =>
    match cs with
    | '"' :: cs1 =>
      (match parseStringBody cs1 with
      | some (k, ':' :: '"' :: cs2) =>
        (match parseStringBody cs2 with
        | some (v, ',' :: rest) =>
          (match parseObjectBody fuel rest with
          | some (m, r) => some ((String.mk k, String.mk v) :: m, r)
          | none => none)
        | some (v, '}' :: rest) => some ([(String.mk k, String.mk v)], rest)
        | _ => none)
      | _ => none)
    | _ => none

/-- `JSON.parse` of a flat string-to-string record; `none` models the
parse exception on malformed input. -/
def parseRollbacks (s : String) : Option (List (String × String)) :=
  match s.data with
  | '{' :: cs =>
    if cs = ['}'] then some []
    else
      (match parseObjectBody cs.length cs with
      | some (m, []) => some m
      | _ => none)
  | _ => none

/-- A file system as path→content, written by full overwrite. -/
def FS := List (String × String)

/-- `Deno.writeTextFile(path, content)`: full overwrite of any prior
content at that path. -/
def fsWrite (fs : FS) (path content : String) : FS :=
  (path, content) :: fs.filter (fun kv => kv.1 ≠ path)

/-- `safeStat` + `Deno.readTextFile`: `none` when the file does not
exist. -/
def fsRead (fs : FS) (path : String) : Option String :=
  (fs.find? (fun kv => kv.1 = path)).map Prod.snd

/-- `${basePath}/${name}/rollbacks/${date}/rollback.json`. -/
def rollbackPath (basePath dppName date : String) : String :=
  basePath ++ "/" ++ dppName ++ "/rollbacks/" ++ date ++ "/rollback.json"

/-- The write phase of `saveRollbackFile` (main.ts lines 1668–1676):
`for (const date of ["latest", getFormattedDate(new Date())])`, write
the serialized record at that label's path, overwriting. -/
def writeRollbackFiles (basePath dppName timestampLabel : String)
    (revisions : List (String × String)) (fs : FS) : FS :=
  fsWrite
    (fsWrite fs (rollbackPath basePath dppName "latest")
      (encodeRollbacks revisions))
    (rollbackPath basePath dppName timestampLabel)
    (encodeRollbacks revisions)

/-- The revision-gathering phase of `saveRollbackFile` (main.ts lines
1641–1655): every registry plugin (via `getPlugins(denops, [])`) with a
non-empty protocol name contributes its current revision. -/
def saveRollbackRevisions (env : Env) : List (String × String) :=
  ((getPlugins env.registry []).filter (fun p => p.protocol ≠ "")).map
    (fun p => (p.name, env.getRevisionNew p.name))

/-- Result of `loadRollbackFile`: the parsed record, or the propagated
`JSON.parse` exception. -/
inductive LoadResult where
  | ok (m : List (String × String))
  | parseError
deriving DecidableEq, Repr

/-- `loadRollbackFile` (main.ts lines 1679–1695): empty record when the
file is absent, otherwise `JSON.parse` of its content. -/
def loadRollbackFile (basePath dppName date : String) (fs : FS) : LoadResult :=
  match fsRead fs (rollbackPath basePath dppName date) with
  | none => .ok []
  | some content =>
    match parseRollbacks content with
    | some m => .ok m
    | none => .parseError

/-! ### Run summary formatting (`#updatePlugins` report phase) -/

/-- `/^https?:\/\/github.com\//.test(url)`. -/
def isGithubHttpUrl (s : String) : Bool :=
  "https://github.com/".isPrefixOf s ∨ "http://github.com/".isPrefixOf s

/-- `url.replace(/\.git$/, "")`. -/
def stripGitSuffix (s : String) : String :=
  if s.endsWith ".git" then s.dropRight 4 else s

/-- `\w` of the JavaScript regex engine. -/
def isWordChar (c : Char) : Bool :=
  c.isAlphanum ∨ c = '_'

/-- `url.replace(/^\w+:/, "https:")`. -/
def replaceSchemeHttps (s : String) : String :=
  let pre := s.data.takeWhile isWordChar
  match s.data.drop pre.length with
  | ':' :: rest => if pre ≠ [] then "https:" ++ String.mk rest else s
  | _ => s

/-- `changesCount` display: JavaScript prints `NaN` for the unparsable
case. -/
def changesCountText : Option Int → String
  | none => "NaN"
  | some n => toString n

/-- `formatPlugin` of the update summary (main.ts lines 569–582). -/
def formatPlugin (u : UpdatedPlugin) : String :=
  let compareLink :=
    if u.oldRev ≠ "" ∧ isGithubHttpUrl u.url then
      "\n    " ++ replaceSchemeHttps (stripGitSuffix u.url) ++ "/compare/" ++
        u.oldRev ++ "..." ++ u.newRev
    else ""
  let changes :=
    if u.changesCount = some 0 then ""
    else "(" ++ changesCountText u.changesCount ++ " change" ++
      (if u.changesCount = some 1 then "" else "s") ++ ")"
  "  " ++ u.plugin.name ++ changes ++ compareLink

/-- `updated.logMessage.match(/.*!.*:|BREAKING CHANGE:/)`: some line
holds a `:` after a `!`, or the literal `BREAKING CHANGE:` occurs.
(JavaScript `.` does not cross newlines, so the first alternative is
per line; the second contains no wildcard.) -/
def hasBreakingMarker (s : String) : Bool :=
  (s.splitOn "\n").any (fun line => (line.dropWhile (fun c => c ≠ '!')).contains ':') ∨
    (s.splitOn "BREAKING CHANGE:").length > 1

/-- The full result of one `#updatePlugins` invocation: the trace, the
`#updatedPlugins`/`#failedPlugins` accessor state, and the resulting
file system (rollback snapshots, if written). -/
structure RunResult where
  events : List Event
  updated : List UpdatedPlugin
  failed : List Plugin
  fs : FS

/-- `#updatePlugins` (main.ts lines 466–643).  With no targets: two
error messages, the completion autocommand, and nothing else —
in particular no `dpp#make_state`.  Otherwise: start banner, the
scheduled workflows, the hook/diff aggregation, the summary messages,
the rollback snapshot when anything updated, the failure summary, then
unconditionally close-progress, `dpp#make_state`, redraw, done banner
and the completion autocommand. -/
def updatePluginsRun (env : Env) (targets : List Plugin)
    (revisions : List (String × String)) (fs : FS) : RunResult :=
  if targets.length = 0 then
    { events := [Event.error "Target plugins are not found.",
        Event.error ("You may have used the wrong plugin name," ++
          " or all of the plugins are already installed."),
        Event.updateDone],
      updated := [], failed := [], fs := fs }
  else
    let startEvs := [Event.message ("Start: " ++ env.nowString)]
    let wf := runWorkflows env revisions targets.length targets 1
    let ups := wf.2.1
    let fps := wf.2.2
    let aggEvs := dependHookEvents env ups []
    let updatedMsgEvs :=
      if ups.length > 0 then
        [Event.message ("Updated plugins:\n" ++
          String.intercalate "\n" (ups.map formatPlugin))] ++
        (let breaking := ups.filter (fun u => hasBreakingMarker u.logMessage)
         if breaking.length > 0 then
           [Event.message ("Breaking updated plugins:\n" ++
             String.intercalate "\n"
               (breaking.map (fun u => "    " ++ u.plugin.name)))]
         else []) ++
        [Event.saveRollback]
      else []
    let fs2 :=
      if ups.length > 0 then
        writeRollbackFiles env.basePath env.dppName env.timestampLabel
          (saveRollbackRevisions env) fs
      else fs
    let failedMsgEvs :=
      if fps.length > 0 then
        [Event.message ("Failed plugins:\n" ++
          String.intercalate "\n" (fps.map (fun p => p.name)) ++ "\n" ++
          "Please read the error message log with the :message command.")]
      else []
    { events := startEvs ++ wf.1 ++ aggEvs ++ updatedMsgEvs ++ failedMsgEvs ++
        [Event.closeProgressWindow, Event.makeState, Event.redraw,
          Event.message ("Done: " ++ env.nowString), Event.updateDone],
      updated := ups, failed := fps, fs := fs2 }

/-- The run log visible through `getLogs` (`#logs`): every message that
went through one of the three print sinks, in trace order. -/
def runLog (events : List Event) : List String :=
  events.filterMap (fun e =>
    match e with
    | .progress msg => some msg
    | .error msg => some msg
    | .message msg => some msg
    | _ => none)

/-! ### Staleness pre-check and not-installed accessor -/

/-- The remote-metadata side of `#checkUpdatedPlugins`: the
`rollback.json` stat result (`none` when the snapshot was never
written), the GraphQL HTTP outcome and the per-index `pushedAt`
payload, with instants as integral epoch milliseconds. -/
structure CheckEnv where
  githubAPIToken : String
  rollbackStatMtime : Option Int
  respOk : Bool
  respErrors : Option String
  pushedAt : Nat → Option Int

/-- One entry of the pre-check result: a plugin together with its
remote `pushedAt` instant. -/
structure CheckUpdatedPlugin where
  plugin : Plugin
  updated : Int
deriving DecidableEq, Repr

/-- `#checkUpdatedPlugins` (main.ts lines 1140–1238): empty result when
no plugins were targeted, when no API token is configured, when the
`latest` rollback snapshot does not exist (no cutoff), when the HTTP
response is not ok or carries GraphQL errors; otherwise the plugins
whose `pushedAt` is strictly after the snapshot mtime. -/
def checkUpdatedPlugins (cenv : CheckEnv) (plugins : List Plugin) :
    List CheckUpdatedPlugin :=
  if plugins.length = 0 then []
  else if cenv.githubAPIToken = "" then []
  else
    match cenv.rollbackStatMtime with
    | none => []
    | some baseUpdated =>
      if ¬ cenv.respOk then []
      else
        match cenv.respErrors with
        | some _ => []
        | none =>
          (plugins.enum.filterMap (fun pi =>
            match cenv.pushedAt pi.1 with
            | some t => if baseUpdated < t then some ⟨pi.2, t⟩ else none
            | none => none))

/-- The `getNotInstalled` action body (main.ts lines 285–305): each
plugin maps to the truthiness of `plugin.path && !await
isDirectory(plugin.path)`, and the list is filtered by those bits in
order (`bits.shift()`). -/
def getNotInstalled (isDir : String → Bool) (plugins : List Plugin) :
    List Plugin :=
  let bits := plugins.map (fun plugin => plugin.path ≠ "" && !(isDir plugin.path))
  (plugins.zip bits).filterMap (fun pb => if pb.2 then some pb.1 else none)

/-! ### Concrete instances used to evaluate the model -/

/-- An inert environment: empty registry, no commands, every command
succeeds silently. -/
def trivEnv : Env where
  registry := []
  isDir := fun _ => false
  runCmd := fun _ => ⟨true, [], []⟩
  getRevisionOld := fun _ => ""
  getRevisionNew := fun _ => ""
  syncCommands := fun _ => []
  rollbackCommands := fun _ _ => []
  revisionLockCommands := fun _ => []
  logCommands := fun _ _ _ => []
  changesCountCommands := fun _ _ _ => []
  diffCommands := fun _ _ _ => []
  url := fun _ => ""

/-- A registry entry flagged both `local` and `frozen`. -/
def localPluginEx : Plugin :=
  { name := "local-plugin", path := "/local", isLocal := true, frozen := true }

/-- Params with the concurrency limit configured to `0`. -/
def zeroProcParams : Params := { maxProcesses := 0 }

/-- A named plugin used as pre-check input. -/
def repoPluginEx : Plugin := { name := "foo", repo := "owner/foo" }

/-- A pre-check environment whose `latest` snapshot has never been
written (`safeStat` returns null). -/
def noSnapshotCheckEnv : CheckEnv where
  githubAPIToken := "tok"
  rollbackStatMtime := none
  respOk := true
  respErrors := none
  pushedAt := fun _ => some 10

/-- A plugin with no `path` attribute. -/
def pathlessPluginEx : Plugin := { name := "pathless" }

/-- A plugin with a path that is not a directory on disk. -/
def missingDirPluginEx : Plugin := { name := "present", path := "/repos/present" }

/-- A dependency declaring a depends-update hook. -/
def quxDep : Plugin := { name := "qux", hook_depends_update := true }

/-- Two plugins sharing the dependency `qux`. -/
def shareDepPlugin1 : Plugin :=
  { name := "p1", protocol := "git", depends := ["qux"] }

/-- See `shareDepPlugin1`. -/
def shareDepPlugin2 : Plugin :=
  { name := "p2", protocol := "git", depends := ["qux"] }

/-- An environment in which every sync succeeds and moves the revision
from `a` to `b`, so both sharing plugins classify as updated. -/
def depEnv : Env where
  registry := [shareDepPlugin1, shareDepPlugin2, quxDep]
  isDir := fun _ => false
  runCmd := fun _ => ⟨true, [], []⟩
  getRevisionOld := fun _ => "a"
  getRevisionNew := fun _ => "b"
  syncCommands := fun _ => []
  rollbackCommands := fun _ _ => []
  revisionLockCommands := fun _ => []
  logCommands := fun _ _ _ => []
  changesCountCommands := fun _ _ _ => []
  diffCommands := fun _ _ _ => []
  url := fun _ => ""

/-- A plugin with a declared pinned revision and an installed tree. -/
def pinnedPluginEx : Plugin :=
  { name := "pinned", path := "/repos/pinned", protocol := "git", rev := "v1.0" }

/-- Environment for the pinned plugin: its path is a directory and the
protocol provides one revision-lock command. -/
def pinEnv : Env where
  registry := [pinnedPluginEx]
  isDir := fun s => s == "/repos/pinned"
  runCmd := fun _ => ⟨true, [], []⟩
  getRevisionOld := fun _ => "v1.0"
  getRevisionNew := fun _ => "v1.0"
  syncCommands := fun _ => [⟨"git", ["pull"]⟩]
  rollbackCommands := fun _ _ => []
  revisionLockCommands := fun _ => [⟨"git", ["checkout", "v1.0"]⟩]
  logCommands := fun _ _ _ => []
  changesCountCommands := fun _ _ _ => []
  diffCommands := fun _ _ _ => []
  url := fun _ => ""

/-- The plugin of the two-command failing-sync scenario. -/
def bazPlugin : Plugin := { name := "baz", protocol := "git" }

/-- Environment where `baz`'s sync sequence is two commands: the first
succeeds and prints a line, the second exits non-zero. -/
def failEnv : Env where
  registry := [bazPlugin]
  isDir := fun _ => false
  runCmd := fun c =>
    if c.cmd = "git-ok" then ⟨true, ["fetched objects"], []⟩
    else ⟨false, [], ["fatal: sync failed"]⟩
  getRevisionOld := fun _ => "r1"
  getRevisionNew := fun _ => "r1"
  syncCommands := fun _ => [⟨"git-ok", []⟩, ⟨"git-bad", []⟩]
  rollbackCommands := fun _ _ => []
  revisionLockCommands := fun _ => []
  logCommands := fun _ _ _ => []
  changesCountCommands := fun _ _ _ => []
  diffCommands := fun _ _ _ => []
  url := fun _ => ""

/-! ## Theorems -/

/-- C1 counterexample: the registry entry `localPluginEx` is flagged
both `local` and `frozen`, yet `getPlugins` (with no name filter)
returns it — the claimed unconditional exclusion does not hold in the
current `main.ts`. -/
theorem getPlugins_returns_local_frozen_counterexample :
    localPluginEx ∈ getPlugins [localPluginEx] [] ∧
      localPluginEx.isLocal = true ∧ localPluginEx.frozen = true := by
  decide

/-- C1 (amended): `getPlugins` filters only by the requested names —
membership is exactly registry membership plus a name match (every
registry plugin when no names are requested) — regardless of the
`local`/`frozen` flags; a `local` plugin is instead skipped inside the
per-plugin update workflow, which records no outcome for it. -/
theorem getPlugins_name_filter_only_and_local_skipped :
    (∀ (registry : List Plugin) (names : List String) (p : Plugin),
      p ∈ getPlugins registry names ↔
        p ∈ registry ∧ (names = [] ∨ p.name ∈ names)) ∧
    (∀ (env : Env) (revisions : List (String × String)) (total : Nat)
      (p : Plugin) (index : Nat), p.isLocal = true →
      (updatePlugin env revisions total p index).classify = .noRecord) := by
  constructor
  · intro registry names p
    unfold getPlugins
    split
    · next h =>
      have hne : names ≠ [] := by
        intro he
        simp [he] at h
      simp [List.mem_filter, hne, List.contains_iff_exists_mem_beq,
        beq_iff_eq]
    · next h =>
      have he : names = [] := by
        cases names with
        | nil => rfl
        | cons a l => simp at h
      simp [he]
  · intro env revisions total p index h
    simp [updatePlugin, h]

/-- C1 amended witness: evaluated at the local/frozen registry entry
and the inert environment. -/
theorem getPlugins_name_filter_only_and_local_skipped_witness :
    (localPluginEx ∈ getPlugins [localPluginEx] [] ↔
      localPluginEx ∈ [localPluginEx] ∧
        (([] : List String) = [] ∨ localPluginEx.name ∈ ([] : List String))) ∧
    localPluginEx.isLocal = true ∧
    (updatePlugin trivEnv [] 1 localPluginEx 1).classify = .noRecord :=
  ⟨getPlugins_name_filter_only_and_local_skipped.1 [localPluginEx] [] localPluginEx,
    rfl,
    getPlugins_name_filter_only_and_local_skipped.2 trivEnv [] 1 localPluginEx 1 rfl⟩

/-- C3 counterexample: with `maxProcesses` configured to `0`, the
scheduler hands `0` to the semaphore — not the clamped `1` the spec
describes. -/
theorem semaphoreSize_not_clamped_counterexample :
    semaphoreSize zeroProcParams = 0 ∧
      clampedSemaphoreSize zeroProcParams = 1 ∧
      semaphoreSize zeroProcParams ≠ clampedSemaphoreSize zeroProcParams := by
  decide

/-- C3 (amended): the effective limit passed to the scheduling
mechanism is the configured `maxProcesses` value unchanged; it agrees
with the spec's clamped value exactly when the configured value is at
least `1`. -/
theorem semaphoreSize_eq_clamped_iff (extParams : Params) :
    semaphoreSize extParams = clampedSemaphoreSize extParams ↔
      1 ≤ extParams.maxProcesses := by
  unfold semaphoreSize clampedSemaphoreSize
  rw [eq_comm, max_eq_left_iff]

/-- C7: when the `latest` rollback snapshot has never been written
(`safeStat` yields no mtime cutoff), the staleness pre-check reports
no plugin as stale. -/
theorem checkUpdatedPlugins_no_snapshot_empty (cenv : CheckEnv)
    (plugins : List Plugin) (h : cenv.rollbackStatMtime = none) :
    checkUpdatedPlugins cenv plugins = [] := by
  unfold checkUpdatedPlugins
  split
  · rfl
  · split
    · rfl
    · rw [h]

/-- C7 witness: the snapshot-less pre-check environment with one
targeted plugin. -/
theorem checkUpdatedPlugins_no_snapshot_empty_witness :
    noSnapshotCheckEnv.rollbackStatMtime = none ∧
      checkUpdatedPlugins noSnapshotCheckEnv [repoPluginEx] = [] :=
  ⟨rfl, checkUpdatedPlugins_no_snapshot_empty noSnapshotCheckEnv [repoPluginEx] rfl⟩

/-- The bits list of `getNotInstalled` is aligned with the plugin it
was computed from. -/
theorem zip_map_self {α β : Type} (f : α → β) (l : List α) :
    l.zip (l.map f) = l.map (fun a => (a, f a)) := by
  induction l with
  | nil => rfl
  | cons a l ih => simp [ih]

/-- C10: `getNotInstalled` never reports a plugin whose `path` is empty
or unset; every reported plugin has a non-empty path that is not a
directory. -/
theorem getNotInstalled_requires_nonempty_path (isDir : String → Bool)
    (plugins : List Plugin) (p : Plugin)
    (hp : p ∈ getNotInstalled isDir plugins) :
    p.path ≠ "" ∧ isDir p.path = false := by
  simp only [getNotInstalled, zip_map_self, List.mem_filterMap,
    List.mem_map] at hp
  obtain ⟨pb, ⟨q, hq, rfl⟩, hsome⟩ := hp
  simp at hsome
  obtain ⟨⟨h1, h2⟩, rfl⟩ := hsome
  exact ⟨h1, h2⟩

/-- C10 witness: with no directories on disk, the pathless plugin is
absent and the pathed one is reported with a non-empty path. -/
theorem getNotInstalled_requires_nonempty_path_witness :
    missingDirPluginEx ∈
        getNotInstalled (fun _ => false) [pathlessPluginEx, missingDirPluginEx] ∧
      missingDirPluginEx.path ≠ "" ∧ (fun _ => false) missingDirPluginEx.path = false :=
  ⟨by decide,
    getNotInstalled_requires_nonempty_path (fun _ => false)
      [pathlessPluginEx, missingDirPluginEx] missingDirPluginEx (by decide)⟩

/-- C8 counterexample: an invocation with an empty target list fires
the completion autocommand but never calls `dpp#make_state` — the
cache-rebuild signal is not unconditional. -/
theorem makeState_skipped_on_empty_counterexample :
    Event.updateDone ∈ (updatePluginsRun trivEnv [] [] ([] : FS)).events ∧
      Event.makeState ∉ (updatePluginsRun trivEnv [] [] ([] : FS)).events := by
  decide

/-- C8 (amended): every `#updatePlugins` invocation emits the
completion autocommand, and it signals the host cache rebuild
(`dpp#make_state`) exactly when the target list is non-empty. -/
theorem run_updateDone_always_makeState_iff_nonempty (env : Env)
    (targets : List Plugin) (revisions : List (String × String)) (fs : FS) :
    Event.updateDone ∈ (updatePluginsRun env targets revisions fs).events ∧
      (Event.makeState ∈ (updatePluginsRun env targets revisions fs).events ↔
        targets ≠ []) := by
  unfold updatePluginsRun
  split
  · next h =>
    have he : targets = [] := List.length_eq_zero.mp h
    subst he
    refine ⟨by simp, ?_⟩
    simp
  · next h =>
    have hne : targets ≠ [] := by
      intro he
      simp [he] at h
    refine ⟨by simp, ?_⟩
    simp [hne]

/-- Decoding inverts escaping: a string body followed by its closing
quote parses back to the original characters. -/
theorem parseStringBody_escapeChars (s : List Char) (rest : List Char) :
    parseStringBody (escapeChars s ++ '"' :: rest) = some (s, rest) := by
  induction s with
  | nil =>
    rw [show escapeChars [] ++ '"' :: rest = '"' :: rest from rfl,
      parseStringBody.eq_def]
    simp
  | cons c cs ih =>
    by_cases hc : c = '"' ∨ c = '\\'
    · have he : escapeChars (c :: cs) ++ '"' :: rest =
          '\\' :: c :: (escapeChars cs ++ '"' :: rest) := by
        simp [escapeChars, escapeChar, hc]
      rw [he, parseStringBody.eq_def]
      simp [hc, ih]
    · push_neg at hc
      have he : escapeChars (c :: cs) ++ '"' :: rest =
          c :: (escapeChars cs ++ '"' :: rest) := by
        simp [escapeChars, escapeChar, hc.1, hc.2]
      rw [he, parseStringBody.eq_def]
      simp [hc.1, hc.2, ih]

/-- Structure of a non-empty encoded member list: it starts with the
opening quote of the first key. -/
theorem encodePairsData_cons (kv : String × String)
    (rest : List (String × String)) :
    ∃ t, encodePairsData (kv :: rest) = '"' :: t := by
  cases rest with
  | nil => exact ⟨_, rfl⟩
  | cons b l =>
    refine ⟨escapeChars kv.1.data ++ ['"'] ++ (':' :: encodeStringData kv.2) ++
      ',' :: encodePairsData (b :: l), ?_⟩
    simp [encodePairsData, encodePairData, encodeStringData]

/-- A member is at least one character long. -/
theorem one_le_length_encodePairData (kv : String × String) :
    1 ≤ (encodePairData kv).length := by
  rw [show encodePairData kv =
    encodeStringData kv.1 ++ ':' :: encodeStringData kv.2 from rfl,
    List.length_append, List.length_cons]
  omega

/-- Each member contributes at least one character. -/
theorem length_le_encodePairsData (m : List (String × String)) :
    m.length ≤ (encodePairsData m).length := by
  induction m with
  | nil => simp [encodePairsData]
  | cons kv rest ih =>
    cases rest with
    | nil =>
      simpa using one_le_length_encodePairData kv
    | cons b l =>
      rw [show encodePairsData (kv :: b :: l) =
        encodePairData kv ++ ',' :: encodePairsData (b :: l) from rfl,
        List.length_append, List.length_cons]
      have h1 := one_le_length_encodePairData kv
      simp only [List.length_cons] at ih ⊢
      omega

/-- Decoding inverts encoding of the member list, given enough fuel. -/
theorem parseObjectBody_encodePairsData (m : List (String × String)) :
    m ≠ [] → ∀ fuel, m.length ≤ fuel → ∀ rest,
      parseObjectBody fuel (encodePairsData m ++ '}' :: rest) =
        some (m, rest) := by
  induction m with
  | nil => intro h; exact absurd rfl h
  | cons kv tail ih =>
    intro _ fuel hfuel rest
    cases fuel with
    | zero => simp at hfuel
    | succ fuel =>
      cases tail with
      | nil =>
        have hshape : encodePairsData [kv] ++ '}' :: rest =
            '"' :: (escapeChars kv.1.data ++ '"' :: (':' :: '"' ::
              (escapeChars kv.2.data ++ '"' :: ('}' :: rest)))) := by
          simp [encodePairsData, encodePairData, encodeStringData]
        rw [hshape, parseObjectBody.eq_def]
        simp [parseStringBody_escapeChars]
      | cons b l =>
        have hfuel' : (b :: l).length ≤ fuel := by
          simp only [List.length_cons] at hfuel ⊢
          omega
        have hrec := ih (by simp) fuel hfuel' rest
        have hshape : encodePairsData (kv :: b :: l) ++ '}' :: rest =
            '"' :: (escapeChars kv.1.data ++ '"' :: (':' :: '"' ::
              (escapeChars kv.2.data ++ '"' :: (',' ::
                (encodePairsData (b :: l) ++ '}' :: rest))))) := by
          simp [encodePairsData, encodePairData, encodeStringData]
        rw [hshape, parseObjectBody.eq_def]
        simp [parseStringBody_escapeChars, hrec]

/-- `JSON.parse` inverts `JSON.stringify` on flat string-to-string
records. -/
theorem parseRollbacks_encodeRollbacks (m : List (String × String)) :
    parseRollbacks (encodeRollbacks m) = some m := by
  cases m with
  | nil => rfl
  | cons kv rest =>
    obtain ⟨t, ht⟩ := encodePairsData_cons kv rest
    have hlen : (kv :: rest).length ≤
        (encodePairsData (kv :: rest) ++ ['}']).length := by
      have := length_le_encodePairsData (kv :: rest)
      rw [List.length_append]
      omega
    have hparse : parseObjectBody
        ((encodePairsData (kv :: rest) ++ ['}']).length)
        (encodePairsData (kv :: rest) ++ ['}']) = some (kv :: rest, []) := by
      have h := parseObjectBody_encodePairsData (kv :: rest) (by simp)
        ((encodePairsData (kv :: rest) ++ ['}']).length) hlen []
      simpa using h
    rw [show encodeRollbacks (kv :: rest) =
      String.mk ('{' :: (encodePairsData (kv :: rest) ++ ['}'])) from rfl,
      parseRollbacks.eq_def]
    have hne : encodePairsData (kv :: rest) ++ ['}'] ≠ ['}'] := by
      rw [ht]
      simp
    simp only []
    rw [if_neg hne, hparse]

/-- C6: saving a rollback snapshot is a full overwrite under both the
`latest` label and the fresh timestamp label, and loading either label
back parses the very mapping that was saved — for every mapping, every
timestamp label and every prior file-system content. -/
theorem saveRollback_load_roundtrip (basePath dppName timestampLabel : String)
    (revisions : List (String × String)) (fs : FS) :
    loadRollbackFile basePath dppName "latest"
        (writeRollbackFiles basePath dppName timestampLabel revisions fs) =
      .ok revisions ∧
    loadRollbackFile basePath dppName timestampLabel
        (writeRollbackFiles basePath dppName timestampLabel revisions fs) =
      .ok revisions := by
  constructor
  · unfold loadRollbackFile writeRollbackFiles fsRead fsWrite
    by_cases hpath : rollbackPath basePath dppName timestampLabel =
      rollbackPath basePath dppName "latest"
    · simp [List.find?, hpath, parseRollbacks_encodeRollbacks]
    · have hpath' : rollbackPath basePath dppName "latest" ≠
          rollbackPath basePath dppName timestampLabel :=
        fun h => hpath h.symm
      simp [List.find?, List.filter, hpath, hpath',
        parseRollbacks_encodeRollbacks]
  · unfold loadRollbackFile writeRollbackFiles fsRead fsWrite
    simp [List.find?, parseRollbacks_encodeRollbacks]

/-- A command spawn contributes no hook event. -/
theorem hook_not_mem_cmdRunEvents (env : Env) (c : Command) (k n : String) :
    Event.hook k n ∉ cmdRunEvents env c := by
  simp [cmdRunEvents]

/-- A command spawn contributes no build event. -/
theorem build_not_mem_cmdRunEvents (env : Env) (c : Command) (n : String) :
    Event.build n ∉ cmdRunEvents env c := by
  simp [cmdRunEvents]

/-- The revision-lock step contributes no hook event. -/
theorem hook_not_mem_revisionLockPlugin (env : Env) (p : Plugin)
    (k n : String) : Event.hook k n ∉ revisionLockPlugin env p := by
  unfold revisionLockPlugin
  split
  · simp
  · intro hmem
    simp only [List.mem_flatten, List.mem_map] at hmem
    obtain ⟨l, ⟨c, _, rfl⟩, hl⟩ := hmem
    exact hook_not_mem_cmdRunEvents env c k n hl

/-- The revision-lock step contributes no build event. -/
theorem build_not_mem_revisionLockPlugin (env : Env) (p : Plugin)
    (n : String) : Event.build n ∉ revisionLockPlugin env p := by
  unfold revisionLockPlugin
  split
  · simp
  · intro hmem
    simp only [List.mem_flatten, List.mem_map] at hmem
    obtain ⟨l, ⟨c, _, rfl⟩, hl⟩ := hmem
    exact build_not_mem_cmdRunEvents env c n hl

/-- The sync-command loop contributes no hook event. -/
theorem hook_not_mem_execCommands (env : Env) (cs : List Command)
    (k n : String) : Event.hook k n ∉ (execCommands env cs).events := by
  induction cs with
  | nil => simp [execCommands]
  | cons c rest ih =>
    unfold execCommands
    split
    · intro hmem
      rcases List.mem_append.mp hmem with h | h
      · exact hook_not_mem_cmdRunEvents env c k n h
      · exact ih h
    · exact hook_not_mem_cmdRunEvents env c k n

/-- The sync-command loop contributes no build event. -/
theorem build_not_mem_execCommands (env : Env) (cs : List Command)
    (n : String) : Event.build n ∉ (execCommands env cs).events := by
  induction cs with
  | nil => simp [execCommands]
  | cons c rest ih =>
    unfold execCommands
    split
    · intro hmem
      rcases List.mem_append.mp hmem with h | h
      · exact build_not_mem_cmdRunEvents env c n h
      · exact ih h
    · exact build_not_mem_cmdRunEvents env c n

/-- The spawn/stderr event lists of the log, changes-count and diff
queries contribute no hook event. -/
theorem hook_not_mem_execErrFlatten (env : Env) (cmds : List Command)
    (k n : String) :
    Event.hook k n ∉ (cmds.map (fun c =>
      Event.execCmd c :: (env.runCmd c).stderrLines.map Event.error)).flatten := by
  intro hmem
  simp only [List.mem_flatten, List.mem_map] at hmem
  obtain ⟨l, ⟨c, _, rfl⟩, hl⟩ := hmem
  simp at hl

/-- See `hook_not_mem_execErrFlatten`, for build events. -/
theorem build_not_mem_execErrFlatten (env : Env) (cmds : List Command)
    (n : String) :
    Event.build n ∉ (cmds.map (fun c =>
      Event.execCmd c :: (env.runCmd c).stderrLines.map Event.error)).flatten := by
  intro hmem
  simp only [List.mem_flatten, List.mem_map] at hmem
  obtain ⟨l, ⟨c, _, rfl⟩, hl⟩ := hmem
  simp at hl

/-- The log-message query contributes no hook event. -/
theorem hook_not_mem_getLogMessage (env : Env) (p : Plugin)
    (o nv : String) (k n : String) :
    Event.hook k n ∉ (getLogMessage env p o nv).2 := by
  unfold getLogMessage
  split
  · simp
  · exact hook_not_mem_execErrFlatten env _ k n

/-- The changes-count query contributes no hook event. -/
theorem hook_not_mem_getChangesCount (env : Env) (p : Plugin)
    (o nv : String) (k n : String) :
    Event.hook k n ∉ (getChangesCount env p o nv).2 := by
  unfold getChangesCount
  split
  · simp
  · exact hook_not_mem_execErrFlatten env _ k n

/-- The build step contributes no hook event. -/
theorem hook_not_mem_buildPlugin (env : Env) (p : Plugin) (k n : String) :
    Event.hook k n ∉ buildPlugin env p := by
  unfold buildPlugin
  split
  · simp
  · intro hmem
    rcases List.mem_cons.mp hmem with h | h
    · exact Event.noConfusion h
    · exact hook_not_mem_cmdRunEvents env _ k n h

/-- The diff display contributes no hook event. -/
theorem hook_not_mem_checkDiff (env : Env) (u : UpdatedPlugin)
    (k n : String) : Event.hook k n ∉ checkDiff env u := by
  unfold checkDiff
  split
  · simp
  · exact hook_not_mem_execErrFlatten env _ k n

/-- Decomposition of `#updatePlugin` for a non-local plugin with a
protocol: the intro line, the pin-clearing lock, the pre-update hook,
the sync loop and the post-sync lock appear in that order followed by
a classification-dependent tail; the plugin's `rev` field ends up
restored; a failed sync yields the failed classification with an empty
tail; and the tail can hold no hook event other than the post-update
hook. -/
theorem updatePlugin_shape (env : Env) (revisions : List (String × String))
    (total : Nat) (p : Plugin) (index : Nat)
    (hlocal : p.isLocal = false) (hproto : p.protocol ≠ "") :
    ∃ tail,
      (updatePlugin env revisions total p index).events =
        [Event.progress ("[" ++ toString index ++ "/" ++ toString total ++
            "] " ++ p.name)] ++
          (if p.rev ≠ "" then revisionLockPlugin env (withRev p "")
            else []) ++
          (if p.hook_pre_update then [Event.hook "pre_update" p.name]
            else []) ++
          (execCommands env (syncCommandSeq env revisions p)).events ++
          (if p.rev ≠ "" then revisionLockPlugin env p else []) ++ tail ∧
      (updatePlugin env revisions total p index).finalPlugin = p ∧
      ((execCommands env (syncCommandSeq env revisions p)).success = false →
        (updatePlugin env revisions total p index).classify = .failed p ∧
          tail = []) ∧
      (∀ k n, Event.hook k n ∈ tail → k = "post_update" ∧ n = p.name) := by
  by_cases hs : (execCommands env (syncCommandSeq env revisions p)).success = true
  · by_cases hch : env.getRevisionOld p.name = "" ∨
        ¬ env.getRevisionOld p.name = env.getRevisionNew p.name
    · refine ⟨(getLogMessage env p (env.getRevisionOld p.name)
          (env.getRevisionNew p.name)).2 ++
        (getChangesCount env p (env.getRevisionOld p.name)
          (env.getRevisionNew p.name)).2 ++
        (if p.hook_post_update then [Event.hook "post_update" p.name]
          else []) ++ buildPlugin env p, ?_, ?_, ?_, ?_⟩
      · simp [updatePlugin, withRev_clear_restore, hlocal, hproto, hs, hch, List.append_assoc]
      · simp [updatePlugin, withRev_clear_restore, hlocal, hproto, hs, hch]
      · intro hfalse
        rw [hs] at hfalse
        exact absurd hfalse (by simp)
      · intro k n hmem
        rcases List.mem_append.mp hmem with hmem | hb
        · rcases List.mem_append.mp hmem with hmem | hp
          · rcases List.mem_append.mp hmem with hl | hc
            · exact absurd hl (hook_not_mem_getLogMessage env p _ _ k n)
            · exact absurd hc (hook_not_mem_getChangesCount env p _ _ k n)
          · rcases hhp : p.hook_post_update with _ | _
            · rw [hhp] at hp
              simp at hp
            · rw [hhp] at hp
              simp at hp
              exact ⟨hp.1, hp.2⟩
        · exact absurd hb (hook_not_mem_buildPlugin env p k n)
    · refine ⟨(getLogMessage env p (env.getRevisionOld p.name)
          (env.getRevisionNew p.name)).2 ++
        (getChangesCount env p (env.getRevisionOld p.name)
          (env.getRevisionNew p.name)).2, ?_, ?_, ?_, ?_⟩
      · simp [updatePlugin, withRev_clear_restore, hlocal, hproto, hs, hch, List.append_assoc]
      · simp [updatePlugin, withRev_clear_restore, hlocal, hproto, hs, hch]
      · intro hfalse
        rw [hs] at hfalse
        exact absurd hfalse (by simp)
      · intro k n hmem
        rcases List.mem_append.mp hmem with hl | hc
        · exact absurd hl (hook_not_mem_getLogMessage env p _ _ k n)
        · exact absurd hc (hook_not_mem_getChangesCount env p _ _ k n)
  · have hs' : (execCommands env (syncCommandSeq env revisions p)).success = false := by
      simpa using hs
    refine ⟨[], ?_, ?_, ?_, ?_⟩
    · simp [updatePlugin, withRev_clear_restore, hlocal, hproto, hs', List.append_assoc]
    · simp [updatePlugin, withRev_clear_restore, hlocal, hproto, hs']
    · intro _
      constructor
      · simp [updatePlugin, withRev_clear_restore, hlocal, hproto, hs']
      · rfl
    · intro k n hmem
      simp at hmem

/-- C4: for a plugin with a declared pinned revision, the update
workflow restores the pinned-revision field on every exit path (the
result's plugin record equals the input), the post-sync revision-lock
step appears in the trace whenever a pin exists — independent of the
sync outcome, since this holds for every environment — and when the
plugin's path is an existing directory every revision-lock command is
actually spawned. -/
theorem pin_restored_and_lock_runs_regardless (env : Env)
    (revisions : List (String × String)) (total : Nat) (p : Plugin)
    (index : Nat) (hlocal : p.isLocal = false) (hproto : p.protocol ≠ "")
    (hrev : p.rev ≠ "") :
    (updatePlugin env revisions total p index).finalPlugin = p ∧
    (∃ pre post, (updatePlugin env revisions total p index).events =
      pre ++ revisionLockPlugin env p ++ post) ∧
    (p.path ≠ "" → env.isDir p.path = true →
      ∀ c ∈ env.revisionLockCommands p.name,
        Event.execCmd c ∈ (updatePlugin env revisions total p index).events) := by
  obtain ⟨tail, hev, hfin, -, -⟩ :=
    updatePlugin_shape env revisions total p index hlocal hproto
  simp only [ne_eq, hrev, not_false_eq_true, if_true] at hev
  refine ⟨hfin, ⟨_, tail, hev⟩, ?_⟩
  intro hpath hdir c hc
  have hmem : Event.execCmd c ∈ revisionLockPlugin env p := by
    unfold revisionLockPlugin
    rw [if_neg (by simp [hpath, hdir, hrev])]
    exact List.mem_flatten.mpr
      ⟨cmdRunEvents env c, List.mem_map_of_mem _ hc, by simp [cmdRunEvents]⟩
  rw [hev]
  simp only [List.mem_append]
  exact Or.inl (Or.inr hmem)

/-- C4 witness: the pinned plugin in an environment whose lock command
is `git checkout v1.0`. -/
theorem pin_restored_and_lock_runs_regardless_witness :
    pinnedPluginEx.rev ≠ "" ∧
    (updatePlugin pinEnv [] 1 pinnedPluginEx 1).finalPlugin = pinnedPluginEx ∧
    (∃ pre post, (updatePlugin pinEnv [] 1 pinnedPluginEx 1).events =
      pre ++ revisionLockPlugin pinEnv pinnedPluginEx ++ post) ∧
    Event.execCmd ⟨"git", ["checkout", "v1.0"]⟩ ∈
      (updatePlugin pinEnv [] 1 pinnedPluginEx 1).events := by
  have h := pin_restored_and_lock_runs_regardless pinEnv [] 1 pinnedPluginEx 1
    rfl (by decide) (by decide)
  exact ⟨by decide, h.1, h.2.1,
    h.2.2 (by decide) (by decide) _ (by decide)⟩

/-- A progress event's text is in the run log. -/
theorem mem_runLog_of_progress (evs : List Event) (l : String)
    (h : Event.progress l ∈ evs) : l ∈ runLog evs :=
  List.mem_filterMap.mpr ⟨_, h, rfl⟩

/-- The sync loop on a sequence whose first `k` commands succeed and
whose `k`-th fails: the loop reports failure, exactly the first
`k + 1` commands were spawned (in list order), and every stdout line
of the succeeding prefix is in the loop's trace. -/
theorem execCommands_first_failure (env : Env) (cs : List Command)
    (k : Nat) (hk : k < cs.length)
    (hbefore : ∀ j (hj : j < k),
      (env.runCmd (cs.get ⟨j, Nat.lt_trans hj hk⟩)).success = true)
    (hfail : (env.runCmd (cs.get ⟨k, hk⟩)).success = false) :
    (execCommands env cs).success = false ∧
    (execCommands env cs).executed = cs.take (k + 1) ∧
    ∀ j (hj : j < k),
      ∀ line ∈ (env.runCmd (cs.get ⟨j, Nat.lt_trans hj hk⟩)).stdoutLines,
        Event.progress line ∈ (execCommands env cs).events := by
  induction cs generalizing k with
  | nil => simp at hk
  | cons c rest ih =>
    cases k with
    | zero =>
      have hc : (env.runCmd c).success = false := hfail
      unfold execCommands
      rw [hc]
      refine ⟨rfl, by simp, ?_⟩
      intro j hj
      exact absurd hj (Nat.not_lt_zero j)
    | succ k' =>
      have hc : (env.runCmd c).success = true := hbefore 0 (Nat.succ_pos k')
      have hk' : k' < rest.length := Nat.lt_of_succ_lt_succ hk
      have hrec := ih k' hk'
        (fun j hj => hbefore (j + 1) (Nat.succ_lt_succ hj))
        hfail
      unfold execCommands
      rw [hc]
      simp only [if_true]
      refine ⟨hrec.1, by simp [hrec.2.1], ?_⟩
      intro j hj line hline
      cases j with
      | zero =>
        have hline' : line ∈ (env.runCmd c).stdoutLines := hline
        exact List.mem_append_left _
          (by simp [cmdRunEvents]; exact hline')
      | succ j' =>
        exact List.mem_append_right _
          (hrec.2.2 j' (Nat.lt_of_succ_lt_succ hj) line hline)

/-- C5: within one plugin's sync step, the first command exiting
non-zero (after `k` successes) makes the workflow classify the plugin
as failed — its single resolution for the run — while exactly the
first `k + 1` commands were spawned in list order, every stdout line
of the earlier commands is still in the run log, and neither the build
step nor the post-update hook ran for that plugin. -/
theorem sync_failure_aborts_rest_no_build (env : Env)
    (revisions : List (String × String)) (total : Nat) (p : Plugin)
    (index : Nat) (k : Nat)
    (hlocal : p.isLocal = false) (hproto : p.protocol ≠ "")
    (hk : k < (syncCommandSeq env revisions p).length)
    (hbefore : ∀ j (hj : j < k),
      (env.runCmd ((syncCommandSeq env revisions p).get
        ⟨j, Nat.lt_trans hj hk⟩)).success = true)
    (hfail : (env.runCmd ((syncCommandSeq env revisions p).get
      ⟨k, hk⟩)).success = false) :
    (updatePlugin env revisions total p index).classify = .failed p ∧
    (execCommands env (syncCommandSeq env revisions p)).executed =
      (syncCommandSeq env revisions p).take (k + 1) ∧
    (∀ j (hj : j < k),
      ∀ line ∈ (env.runCmd ((syncCommandSeq env revisions p).get
          ⟨j, Nat.lt_trans hj hk⟩)).stdoutLines,
        line ∈ runLog (updatePlugin env revisions total p index).events) ∧
    (∀ n, Event.build n ∉ (updatePlugin env revisions total p index).events) ∧
    Event.hook "post_update" p.name ∉
      (updatePlugin env revisions total p index).events := by
  obtain ⟨hsf, hexec, hlines⟩ :=
    execCommands_first_failure env (syncCommandSeq env revisions p) k hk
      hbefore hfail
  obtain ⟨tail, hev, -, himp, -⟩ :=
    updatePlugin_shape env revisions total p index hlocal hproto
  obtain ⟨hcls, htail⟩ := himp hsf
  subst htail
  refine ⟨hcls, hexec, ?_, ?_, ?_⟩
  · intro j hj line hline
    apply mem_runLog_of_progress
    rw [hev]
    simp only [List.mem_append]
    exact Or.inl (Or.inl (Or.inr (hlines j hj line hline)))
  · intro n
    rw [hev]
    intro hmem
    simp only [List.append_nil, List.mem_append] at hmem
    rcases hmem with ((hmem | hmem) | hmem) | hmem
    · rcases hmem with hmem | hmem
      · simp at hmem
      · split at hmem
        · exact build_not_mem_revisionLockPlugin env _ n hmem
        · simp at hmem
    · split at hmem
      · simp at hmem
      · simp at hmem
    · exact build_not_mem_execCommands env _ n hmem
    · split at hmem
      · exact build_not_mem_revisionLockPlugin env _ n hmem
      · simp at hmem
  · rw [hev]
    intro hmem
    simp only [List.append_nil, List.mem_append] at hmem
    rcases hmem with ((hmem | hmem) | hmem) | hmem
    · rcases hmem with hmem | hmem
      · simp at hmem
      · split at hmem
        · exact hook_not_mem_revisionLockPlugin env _ _ _ hmem
        · simp at hmem
    · split at hmem
      · simp at hmem
      · simp at hmem
    · exact hook_not_mem_execCommands env _ _ _ hmem
    · split at hmem
      · exact hook_not_mem_revisionLockPlugin env _ _ _ hmem
      · simp at hmem

/-- C5 witness: `baz`'s two-command sync where the second command
fails: one failed classification, only the two commands spawned, the
first command's output in the run log, no build and no post-update
hook. -/
theorem sync_failure_aborts_rest_no_build_witness :
    1 < (syncCommandSeq failEnv [] bazPlugin).length ∧
    (updatePlugin failEnv [] 1 bazPlugin 1).classify = .failed bazPlugin ∧
    (execCommands failEnv (syncCommandSeq failEnv [] bazPlugin)).executed =
      (syncCommandSeq failEnv [] bazPlugin).take 2 ∧
    "fetched objects" ∈ runLog (updatePlugin failEnv [] 1 bazPlugin 1).events ∧
    Event.build bazPlugin.name ∉ (updatePlugin failEnv [] 1 bazPlugin 1).events ∧
    Event.hook "post_update" bazPlugin.name ∉
      (updatePlugin failEnv [] 1 bazPlugin 1).events := by
  have hk : 1 < (syncCommandSeq failEnv [] bazPlugin).length := by decide
  have h := sync_failure_aborts_rest_no_build failEnv [] 1 bazPlugin 1 1
    rfl (by decide) hk
    (fun j hj => by
      have hj0 : j = 0 := by omega
      subst hj0
      rfl)
    rfl
  exact ⟨hk, h.1, h.2.1,
    h.2.2.1 0 (by omega) "fetched objects" (List.mem_cons_self _ _),
    h.2.2.2.1 bazPlugin.name, h.2.2.2.2⟩

/-- One workflow invocation resolves to no record, one updated entry
carrying the invocation's own plugin, or one failed entry carrying the
invocation's own plugin. -/
theorem updatePlugin_classify_cases (env : Env)
    (revisions : List (String × String)) (total : Nat) (p : Plugin)
    (index : Nat) :
    (updatePlugin env revisions total p index).classify = .noRecord ∨
    (∃ u, (updatePlugin env revisions total p index).classify = .updated u ∧
      u.plugin = p) ∨
    (updatePlugin env revisions total p index).classify = .failed p := by
  by_cases hl : p.isLocal = true
  · exact Or.inl (by simp [updatePlugin, hl])
  · have hl' : p.isLocal = false := by simpa using hl
    by_cases hp : p.protocol = ""
    · exact Or.inl (by simp [updatePlugin, hl', hp])
    · by_cases hs : (execCommands env (syncCommandSeq env revisions p)).success = true
      · by_cases hch : env.getRevisionOld p.name = "" ∨
            ¬ env.getRevisionOld p.name = env.getRevisionNew p.name
        · refine Or.inr (Or.inl ⟨⟨p, env.getRevisionNew p.name,
            env.getRevisionOld p.name, env.url p.name,
            (getLogMessage env p (env.getRevisionOld p.name)
              (env.getRevisionNew p.name)).1,
            (getChangesCount env p (env.getRevisionOld p.name)
              (env.getRevisionNew p.name)).1⟩, ?_, rfl⟩)
          simp [updatePlugin, withRev_clear_restore, hl', hp, hs, hch]
        · exact Or.inl
            (by simp [updatePlugin, withRev_clear_restore, hl', hp, hs, hch])
      · have hs' : (execCommands env (syncCommandSeq env revisions p)).success
            = false := by simpa using hs
        exact Or.inr (Or.inr
          (by simp [updatePlugin, withRev_clear_restore, hl', hp, hs']))

/-- Each scheduled workflow contributes at most its own plugin's name
to the updated and failed lists. -/
theorem runWorkflows_count_le (env : Env)
    (revisions : List (String × String)) (total : Nat)
    (targets : List Plugin) (index : Nat) (pname : String) :
    ((runWorkflows env revisions total targets index).2.1.map
      (fun u => u.plugin.name)).count pname +
    ((runWorkflows env revisions total targets index).2.2.map
      Plugin.name).count pname ≤
    (targets.map Plugin.name).count pname := by
  induction targets generalizing index with
  | nil => simp [runWorkflows]
  | cons p rest ih =>
    have hrec := ih (index + 1)
    rcases updatePlugin_classify_cases env revisions total p index with
      h | ⟨u, h, hup⟩ | h
    · simp only [runWorkflows, h]
      by_cases hnm : p.name = pname <;> simp [hnm, List.count_cons] <;> omega
    · simp only [runWorkflows, h]
      by_cases hnm : p.name = pname <;>
        simp [hnm, hup, List.count_cons] <;> omega
    · simp only [runWorkflows, h]
      by_cases hnm : p.name = pname <;> simp [hnm, List.count_cons] <;> omega

/-- C2: in a completed run over distinctly named targets, a targeted
plugin has at most one entry across the updated and failed lists: it
resolves as exactly one of no record, one UpdateOutcome, or one
FailureRecord. -/
theorem run_single_classification (env : Env) (targets : List Plugin)
    (revisions : List (String × String)) (fs : FS) (p : Plugin)
    (hnodup : (targets.map Plugin.name).Nodup) (hp : p ∈ targets) :
    ((updatePluginsRun env targets revisions fs).updated.map
      (fun u => u.plugin.name)).count p.name +
    ((updatePluginsRun env targets revisions fs).failed.map
      Plugin.name).count p.name ≤ 1 := by
  have hne : ¬ targets.length = 0 := by
    intro h
    rw [List.length_eq_zero] at h
    subst h
    simp at hp
  have hcount1 : (targets.map Plugin.name).count p.name ≤ 1 :=
    List.nodup_iff_count_le_one.mp hnodup p.name
  have hle := runWorkflows_count_le env revisions targets.length targets 1 p.name
  unfold updatePluginsRun
  rw [if_neg hne]
  simp only []
  omega

/-- C2 witness: the two distinctly named sharing plugins of `depEnv`. -/
theorem run_single_classification_witness :
    (([shareDepPlugin1, shareDepPlugin2].map Plugin.name).Nodup ∧
      shareDepPlugin1 ∈ [shareDepPlugin1, shareDepPlugin2]) ∧
    ((updatePluginsRun depEnv [shareDepPlugin1, shareDepPlugin2] []
        ([] : FS)).updated.map (fun u => u.plugin.name)).count
      shareDepPlugin1.name +
    ((updatePluginsRun depEnv [shareDepPlugin1, shareDepPlugin2] []
        ([] : FS)).failed.map Plugin.name).count shareDepPlugin1.name ≤ 1 :=
  ⟨⟨by decide, by decide⟩,
    run_single_classification depEnv [shareDepPlugin1, shareDepPlugin2] []
      ([] : FS) shareDepPlugin1 (by decide) (by decide)⟩

/-- Invariant of the `calledDepends` loop: a dependency fires at most
once (never when already marked), and the set it returns holds exactly
the initially marked names plus those it fired. -/
theorem dependsLoop_spec (deps : List Plugin) (called : List String)
    (d : String) :
    ((dependsLoop deps called).1.count (Event.hook "depends_update" d) +
      (if d ∈ called then 1 else 0) ≤ 1) ∧
    (d ∈ (dependsLoop deps called).2 ↔
      d ∈ called ∨ Event.hook "depends_update" d ∈ (dependsLoop deps called).1) := by
  induction deps generalizing called with
  | nil =>
    constructor
    · simp only [dependsLoop, List.count_nil]
      split <;> omega
    · simp [dependsLoop]
  | cons x rest ih =>
    unfold dependsLoop
    split
    · next hcond =>
      obtain ⟨ih1, ih2⟩ := ih (x.name :: called)
      have hxnc : x.name ∉ called := by
        have h2 := hcond.2
        simpa [List.elem_iff] using h2
      constructor
      · rw [List.count_cons]
        by_cases hxd : x.name = d
        · subst hxd
          rw [if_pos (List.mem_cons_self _ _)] at ih1
          rw [if_neg hxnc]
          simp only [beq_self_eq_true, if_true]
          omega
        · have hbeq : (Event.hook "depends_update" x.name ==
              Event.hook "depends_update" d) = false := by
            simp
            exact hxd
          rw [hbeq]
          simp only [Bool.false_eq_true, if_false]
          by_cases hc : d ∈ called
          · rw [if_pos (List.mem_cons_of_mem _ hc)] at ih1
            rw [if_pos hc]
            omega
          · rw [if_neg (by
              simp only [List.mem_cons]
              push_neg
              exact ⟨fun h => hxd h.symm, hc⟩)] at ih1
            rw [if_neg hc]
            omega
      · rw [ih2]
        simp only [List.mem_cons, Event.hook.injEq, true_and]
        tauto
    · next hcond =>
      exact ih called

/-- When some dependency in the list is named `d`, declares the hook,
and `d` has not been called yet, the loop fires `d`'s hook. -/
theorem dependsLoop_fires (deps : List Plugin) (called : List String)
    (d : String)
    (h : ∃ dp ∈ deps, dp.name = d ∧ dp.hook_depends_update = true)
    (hnc : d ∉ called) :
    Event.hook "depends_update" d ∈ (dependsLoop deps called).1 := by
  induction deps generalizing called with
  | nil => simp at h
  | cons x rest ih =>
    obtain ⟨dp, hdp, hname, hhook⟩ := h
    unfold dependsLoop
    split
    · next hcond =>
      rcases List.mem_cons.mp hdp with rfl | hdp'
      · rw [← hname]
        exact List.mem_cons_self _ _
      · by_cases hxd : x.name = d
        · rw [← hxd]
          exact List.mem_cons_self _ _
        · refine List.mem_cons_of_mem _ (ih (x.name :: called)
            ⟨dp, hdp', hname, hhook⟩ ?_)
          simp only [List.mem_cons]
          push_neg
          exact ⟨fun hh => hxd hh.symm, hnc⟩
    · next hcond =>
      rcases List.mem_cons.mp hdp with rfl | hdp'
      · exfalso
        apply hcond
        refine ⟨hhook, ?_⟩
        rw [hname]
        simpa [List.elem_iff] using hnc
      · exact ih called ⟨dp, hdp', hname, hhook⟩ hnc

/-- The aggregator fires the depends-update hook at most once per
dependency name (never when it is already marked as called). -/
theorem dependHookEvents_count (env : Env) (ups : List UpdatedPlugin)
    (called : List String) (d : String) :
    (dependHookEvents env ups called).count (Event.hook "depends_update" d) +
      (if d ∈ called then 1 else 0) ≤ 1 := by
  induction ups generalizing called with
  | nil =>
    simp only [dependHookEvents, List.count_nil]
    split <;> omega
  | cons u rest ih =>
    unfold dependHookEvents
    simp only [List.count_append]
    have hdone : (if u.plugin.hook_done_update = true then
        [Event.hook "done_update" u.plugin.name] else []).count
        (Event.hook "depends_update" d) = 0 := by
      split <;> simp
    have hdiff : (if env.extParams.checkDiff = true then checkDiff env u
        else []).count (Event.hook "depends_update" d) = 0 := by
      split
      · exact List.count_eq_zero.mpr (hook_not_mem_checkDiff env u _ _)
      · simp
    rw [hdone, hdiff]
    obtain ⟨hdl1, hdl2⟩ :=
      dependsLoop_spec (getPlugins env.registry u.plugin.depends) called d
    have hrec := ih
      ((dependsLoop (getPlugins env.registry u.plugin.depends) called).2)
    by_cases hc : d ∈ called
    · rw [if_pos hc] at hdl1 ⊢
      rw [if_pos (hdl2.mpr (Or.inl hc))] at hrec
      omega
    · rw [if_neg hc] at hdl1 ⊢
      by_cases hm : Event.hook "depends_update" d ∈
          (dependsLoop (getPlugins env.registry u.plugin.depends) called).1
      · rw [if_pos (hdl2.mpr (Or.inr hm))] at hrec
        have hpos := List.count_pos_iff.mpr hm
        omega
      · have h0 : (dependsLoop (getPlugins env.registry u.plugin.depends)
            called).1.count (Event.hook "depends_update" d) = 0 :=
          List.count_eq_zero.mpr hm
        have hc2 : d ∉ (dependsLoop (getPlugins env.registry
            u.plugin.depends) called).2 := by
          intro hh
          rcases hdl2.mp hh with hh' | hh'
          · exact hc hh'
          · exact hm hh'
        rw [if_neg hc2] at hrec
        omega

/-- When some updated plugin's resolved dependency named `d` declares
the hook and `d` is not yet called, the aggregator fires it. -/
theorem dependHookEvents_fires (env : Env) (ups : List UpdatedPlugin)
    (called : List String) (d : String)
    (h : ∃ u ∈ ups, ∃ dp ∈ getPlugins env.registry u.plugin.depends,
      dp.name = d ∧ dp.hook_depends_update = true)
    (hnc : d ∉ called) :
    Event.hook "depends_update" d ∈ dependHookEvents env ups called := by
  induction ups generalizing called with
  | nil => simp at h
  | cons u rest ih =>
    obtain ⟨u', hu', hdp⟩ := h
    unfold dependHookEvents
    rcases List.mem_cons.mp hu' with rfl | hu2
    · exact List.mem_append_left _ (List.mem_append_left _
        (List.mem_append_right _ (dependsLoop_fires _ called d hdp hnc)))
    · by_cases hm : Event.hook "depends_update" d ∈
          (dependsLoop (getPlugins env.registry u.plugin.depends) called).1
      · exact List.mem_append_left _ (List.mem_append_left _
          (List.mem_append_right _ hm))
      · have hdl2 := (dependsLoop_spec
          (getPlugins env.registry u.plugin.depends) called d).2
        have hc2 : d ∉ (dependsLoop (getPlugins env.registry
            u.plugin.depends) called).2 := by
          intro hh
          rcases hdl2.mp hh with hh' | hh'
          · exact hnc hh'
          · exact hm hh'
        exact List.mem_append_right _ (ih _ ⟨u', hu2, hdp⟩ hc2)

/-- A per-plugin workflow never fires a depends-update hook itself. -/
theorem dependsHook_not_mem_updatePlugin (env : Env)
    (revisions : List (String × String)) (total : Nat) (p : Plugin)
    (index : Nat) (d : String) :
    Event.hook "depends_update" d ∉
      (updatePlugin env revisions total p index).events := by
  by_cases hl : p.isLocal = true
  · simp [updatePlugin, hl]
  · have hl' : p.isLocal = false := by simpa using hl
    by_cases hp : p.protocol = ""
    · simp [updatePlugin, hl', hp]
    · obtain ⟨tail, hev, -, -, htail⟩ :=
        updatePlugin_shape env revisions total p index hl' hp
      rw [hev]
      intro hmem
      simp only [List.mem_append] at hmem
      rcases hmem with ((((hmem | hmem) | hmem) | hmem) | hmem) | hmem
      · simp at hmem
      · split at hmem
        · exact hook_not_mem_revisionLockPlugin env _ _ _ hmem
        · simp at hmem
      · split at hmem
        · simp at hmem
        · simp at hmem
      · exact hook_not_mem_execCommands env _ _ _ hmem
      · split at hmem
        · exact hook_not_mem_revisionLockPlugin env _ _ _ hmem
        · simp at hmem
      · obtain ⟨hk, -⟩ := htail _ _ hmem
        exact absurd hk (by decide)

/-- The scheduled workflows as a whole never fire a depends-update
hook. -/
theorem dependsHook_not_mem_runWorkflows (env : Env)
    (revisions : List (String × String)) (total : Nat)
    (targets : List Plugin) (index : Nat) (d : String) :
    Event.hook "depends_update" d ∉
      (runWorkflows env revisions total targets index).1 := by
  induction targets generalizing index with
  | nil => simp [runWorkflows]
  | cons p rest ih =>
    intro hmem
    rcases List.mem_append.mp hmem with h | h
    · exact dependsHook_not_mem_updatePlugin env revisions total p index d h
    · exact ih (index + 1) h

/-- C9: in every completed run the depends-update hook fires at most
once per distinct dependency name, and it fires exactly once for a
name that some updated plugin's resolved dependency list declares with
the hook — also when several updated plugins share that dependency. -/
theorem dependsUpdate_hook_once (env : Env) (targets : List Plugin)
    (revisions : List (String × String)) (fs : FS) (d : String) :
    (updatePluginsRun env targets revisions fs).events.count
      (Event.hook "depends_update" d) ≤ 1 ∧
    ((∃ u ∈ (updatePluginsRun env targets revisions fs).updated,
        ∃ dp ∈ getPlugins env.registry u.plugin.depends,
          dp.name = d ∧ dp.hook_depends_update = true) →
      (updatePluginsRun env targets revisions fs).events.count
        (Event.hook "depends_update" d) = 1) := by
  have hwf := List.count_eq_zero.mpr
    (dependsHook_not_mem_runWorkflows env revisions targets.length targets 1 d)
  have hagg := dependHookEvents_count env
    (runWorkflows env revisions targets.length targets 1).2.1 [] d
  rw [if_neg (List.not_mem_nil d)] at hagg
  unfold updatePluginsRun
  split
  · constructor
    · simp
    · intro h
      simp at h
  · next hne =>
    constructor
    · simp only [List.count_append]
      split_ifs <;> simp [List.count_append, List.count_cons, hwf] <;> omega
    · intro h
      simp only [] at h
      have hfire := dependHookEvents_fires env
        (runWorkflows env revisions targets.length targets 1).2.1 [] d h
        (List.not_mem_nil d)
      have hpos := List.count_pos_iff.mpr hfire
      simp only [List.count_append]
      split_ifs <;> simp [List.count_append, List.count_cons, hwf] <;> omega

/-- C9 witness: two updated plugins both depending on `qux`, whose
depends-update hook fires exactly once in the run. -/
theorem dependsUpdate_hook_once_witness :
    (∃ u ∈ (updatePluginsRun depEnv [shareDepPlugin1, shareDepPlugin2] []
        ([] : FS)).updated,
      ∃ dp ∈ getPlugins depEnv.registry u.plugin.depends,
        dp.name = "qux" ∧ dp.hook_depends_update = true) ∧
    (updatePluginsRun depEnv [shareDepPlugin1, shareDepPlugin2] []
      ([] : FS)).events.count (Event.hook "depends_update" "qux") = 1 := by
  have h : ∃ u ∈ (updatePluginsRun depEnv [shareDepPlugin1, shareDepPlugin2]
      [] ([] : FS)).updated,
      ∃ dp ∈ getPlugins depEnv.registry u.plugin.depends,
        dp.name = "qux" ∧ dp.hook_depends_update = true := by decide
  exact ⟨h, (dependsUpdate_hook_once depEnv [shareDepPlugin1, shareDepPlugin2]
    [] ([] : FS) "qux").2 h⟩

end Installer
